import Mathlib

/-!
Shallow embedding of the gridappsd-alarms correlation service
(`gridappsd-alarms.py`): the metadata-index build loop of `_main` and the
event handler `SimulationSubscriber.on_message`, together with proofs of the
spec's claims about them.

Python dictionaries are modelled as functions `String → Option α` (a key is
present when the function returns `some`).  Iteration order of the Python
dicts `measurement_dict` and `equipment_dict` is modelled by carrying the key
lists explicitly.  A `KeyError` raised during `on_message` is modelled by a
`Bool` "completed normally" flag carried next to the partially mutated state,
since the Python code mutates its dictionaries in place before the point at
which a lookup can raise.
-/

namespace GridappsdAlarms

/-- Pointwise update of a dict modelled as a function (`d[k] = v` for
`v = some x`, `del d[k]` for `v = none`). -/
def updF {α : Type} (f : String → Option α) (k : String) (v : Option α) :
    String → Option α :=
  fun x => if x = k then v else f x

/-- One entry of `message["input"]["message"]["forward_differences"]`. -/
structure DiffItem where
  object : String
  attr : String
  value : Int
  deriving DecidableEq, Repr

/-- The record built at lines 119-125 of the source and stored in
`self.input_map[item["object"]]`. -/
structure PendingCommand where
  equipment_mrid : String
  value : String
  created_by : String
  equipment_name : String
  phases : String
  deriving DecidableEq, Repr

/-- A pending command stamped with the triggering event's timestamp
(lines 139-142). -/
structure Alarm where
  cmd : PendingCommand
  timestamp : Int
  deriving DecidableEq, Repr

/-- The read-only metadata handed to `SimulationSubscriber.__init__`:
`equipment_dict` (id ↦ `IdentifiedObject.name`), the list of tracked
measurement ids in `measurement_dict` iteration order, `meas_eq_map` and
`eq_phases_map`. -/
structure Metadata where
  equipment_dict : String → Option String
  measurement_dict : List String
  meas_eq_map : String → Option String
  eq_phases_map : String → Option String

/-- The message headers fields read by `on_message`. -/
structure Headers where
  destination : String
  goss_subject : String

/-- The message body fields read by `on_message`: the forward differences
(command path), and the timestamp and measurement-value map (output path).
`measurements m = none` models a measurement id absent from
`message["message"]["measurements"]`. -/
structure Message where
  forward_differences : List DiffItem
  timestamp : Int
  measurements : String → Option Int

/-- The mutable per-subscriber state: `self.input_map` (the Pending Command
Table) and `self.measurement_value` (the Measurement Snapshot). -/
structure SubscriberState where
  input_map : String → Option PendingCommand
  measurement_value : String → Option Int

/-- The state set up by `SimulationSubscriber.__init__`: both tables empty. -/
def initState : SubscriberState :=
  { input_map := fun _ => none, measurement_value := fun _ => none }

/-- Python's substring test `needle in hay` on a list of characters:
`listStarts n h` is `n` being a prefix of `h`. -/
def listStarts : List Char → List Char → Bool
  | [], _ => true
  | _ :: _, [] => false
  | a :: as, b :: bs => a = b && listStarts as bs

/-- Test `listHasSub n h`: `n` occurs as a contiguous sublist of `h`. -/
def listHasSub (n : List Char) : List Char → Bool
  | [] => n.isEmpty
  | c :: cs => listStarts n (c :: cs) || listHasSub n cs

/-- Python's `needle in hay` for strings. -/
def containsSubstr (needle hay : String) : Bool :=
  listHasSub needle.toList hay.toList

/-- The membership test
`item["attribute"] in ["ShuntCompensator.sections","Switch.open"]`
(line 118). -/
def trackedAttr (a : String) : Bool :=
  a = "ShuntCompensator.sections" || a = "Switch.open"

/-- The dict built at lines 119-124 for an accepted difference item. -/
def mkPendingCommand (goss : String) (item : DiffItem)
    (name phases : String) : PendingCommand :=
  { equipment_mrid := item.object
    value := if item.value = 1 then "Open" else "Close"
    created_by := goss
    equipment_name := name
    phases := phases }

/-- One iteration of the forward-differences loop (lines 117-125).  Returns
the (possibly updated) `input_map` and `false` when the iteration raises
(the `eq_phases_map` lookup at line 124 is the only lookup that can raise:
the equipment id was checked against `equipment_dict` but may be missing
from `eq_phases_map`). -/
def processDiffItem (meta : Metadata) (goss : String)
    (im : String → Option PendingCommand) (item : DiffItem) :
    (String → Option PendingCommand) × Bool :=
  match meta.equipment_dict item.object with
  | none => (im, true)
  | some name =>
    if trackedAttr item.attr then
      match meta.eq_phases_map item.object with
      | none => (im, false)
      | some ph =>
        (updF im item.object (some (mkPendingCommand goss item name ph)), true)
    else (im, true)

/-- The forward-differences loop of lines 116-125.  A raised lookup aborts
the loop; updates made by earlier iterations persist (in-place mutation). -/
def processDiffItems (meta : Metadata) (goss : String) :
    (String → Option PendingCommand) → List DiffItem →
    (String → Option PendingCommand) × Bool
  | im, [] => (im, true)
  | im, item :: rest =>
    let r := processDiffItem meta goss im item
    if r.2 then processDiffItems meta goss r.1 rest else (r.1, false)

/-- One iteration of the measurement loop (lines 130-142) for measurement id
`m`.  Faithful to the Python statement order: the lookup
`message["message"]["measurements"][m]` happens before any mutation, while
the `meas_eq_map[m]` lookup (line 137) happens after the snapshot has
already been updated (line 136). -/
def processMeasurement (meta : Metadata) (msg : Message)
    (s : SubscriberState) (alarms : List Alarm) (m : String) :
    SubscriberState × List Alarm × Bool :=
  match msg.measurements m with
  | none => (s, alarms, false)
  | some v =>
    match s.measurement_value m with
    | none =>
      ({ s with measurement_value := updF s.measurement_value m (some v) },
       alarms, true)
    | some w =>
      if w ≠ v then
        let s1 : SubscriberState :=
          { s with measurement_value := updF s.measurement_value m (some v) }
        match meta.meas_eq_map m with
        | none => (s1, alarms, false)
        | some eq =>
          match s1.input_map eq with
          | none => (s1, alarms, true)
          | some cmd =>
            ({ s1 with input_map := updF s1.input_map eq none },
             alarms ++ [⟨cmd, msg.timestamp⟩], true)
      else (s, alarms, true)

/-- The measurement loop of lines 130-142 over the tracked measurement ids.
A raised lookup aborts the loop, keeping the mutations already made. -/
def processMeasurements (meta : Metadata) (msg : Message) :
    SubscriberState → List Alarm → List String →
    SubscriberState × List Alarm × Bool
  | s, alarms, [] => (s, alarms, true)
  | s, alarms, m :: rest =>
    let r := processMeasurement meta msg s alarms m
    if r.2.2 then processMeasurements meta msg r.1 r.2.1 rest
    else (r.1, r.2.1, false)

/-- The result of one `on_message` call: the new subscriber state, the list
of batches handed to `self._gapps.send` (each batch one `send` call), and
whether the call completed without raising. -/
structure OnMessageResult where
  state : SubscriberState
  published : List (List Alarm)
  ok : Bool

/-- Model of `SimulationSubscriber.on_message` (lines 100-146).  The input branch runs
when `"input" in headers["destination"]`, the output branch when
`"output" in headers["destination"]`; an exception in the input branch
prevents the output branch and the final publish, an exception in the output
branch prevents the final publish; `send` is called once, with the whole
alarm list, exactly when the list is non-empty. -/
def on_message (meta : Metadata) (s : SubscriberState)
    (headers : Headers) (msg : Message) : OnMessageResult :=
  let rIn :=
    if containsSubstr "input" headers.destination then
      processDiffItems meta headers.goss_subject s.input_map
        msg.forward_differences
    else (s.input_map, true)
  let s1 : SubscriberState := { s with input_map := rIn.1 }
  if rIn.2 then
    let rOut :=
      if containsSubstr "output" headers.destination then
        processMeasurements meta msg s1 [] meta.measurement_dict
      else (s1, [], true)
    if rOut.2.2 then
      { state := rOut.1
        published := if rOut.2.1.isEmpty then [] else [rOut.2.1]
        ok := true }
    else { state := rOut.1, published := [], ok := false }
  else { state := s1, published := [], ok := false }

/-- A whole event stream delivered to one subscriber.  An event whose
handling raises stops the run (the exception escapes the callback); the
batches published so far are kept. -/
def processEvents (meta : Metadata) :
    SubscriberState → List (Headers × Message) →
    SubscriberState × List (List Alarm) × Bool
  | s, [] => (s, [], true)
  | s, (h, m) :: rest =>
    let r := on_message meta s h m
    if r.ok then
      let rr := processEvents meta r.state rest
      (rr.1, r.published ++ rr.2.1, rr.2.2)
    else (r.state, r.published, false)

/-! ### The metadata-index build loop of `_main` (lines 256-265) -/

/-- One measurement record as used by the build loop: its `eqid` and
`phases` fields. -/
structure MeasurementInfo where
  eqid : String
  phases : String
  deriving DecidableEq, Repr

/-- The pair of maps the build loop fills in: `meas_eq_map` and
`eq_phases_map`. -/
structure IndexMaps where
  meas_eq : String → Option String
  eq_phases : String → Option String

/-- The body of the inner `for equipment in equipment_dict` loop
(lines 259-265) for one candidate equipment id. -/
def buildStep (mid : String) (mi : MeasurementInfo) (maps : IndexMaps)
    (eq : String) : IndexMaps :=
  if eq = mi.eqid then
    { meas_eq := updF maps.meas_eq mid (some eq)
      eq_phases :=
        match maps.eq_phases eq with
        | some p => updF maps.eq_phases eq (some (p ++ mi.phases))
        | none => updF maps.eq_phases eq (some mi.phases) }
  else maps

/-- The nested build loop of lines 258-265: for every measurement, scan the
equipment directory's key list and associate on `eqid` match. -/
def buildMaps (eqIds : List String) :
    IndexMaps → List (String × MeasurementInfo) → IndexMaps
  | maps, [] => maps
  | maps, (mid, mi) :: rest =>
    buildMaps eqIds (eqIds.foldl (buildStep mid mi) maps) rest

/-- The empty starting maps (`meas_eq_map = {}`, `eq_phases_map = {}`). -/
def emptyMaps : IndexMaps :=
  { meas_eq := fun _ => none, eq_phases := fun _ => none }

/-! ### Counting instrumentation for the at-most-once property -/

/-- Value `1` when equipment `e` currently has a pending command in `im`. -/
def pendN (im : String → Option PendingCommand) (e : String) : Nat :=
  if (im e).isSome then 1 else 0

/-- Number of alarms in the list whose record names equipment `e`. -/
def alarmsFor (e : String) (l : List Alarm) : Nat :=
  (l.filter (fun a => a.cmd.equipment_mrid == e)).length

/-- Number of alarms for equipment `e` across all published batches. -/
def pubsFor (e : String) (pubs : List (List Alarm)) : Nat :=
  (pubs.map (alarmsFor e)).sum

/-- Value `1` when the difference item passes the two filters of lines 117-118 and
targets equipment `e` (i.e. it would insert a pending command for `e`). -/
def insertsItem (meta : Metadata) (e : String) (it : DiffItem) : Nat :=
  if it.object = e ∧ (meta.equipment_dict it.object).isSome ∧
      trackedAttr it.attr = true then 1 else 0

/-- Number of difference items in a batch that insert a command for `e`. -/
def insertsItems (meta : Metadata) (e : String) (items : List DiffItem) : Nat :=
  (items.map (insertsItem meta e)).sum

/-- Number of commands for `e` that one event's handling can insert. -/
def insertsFor (meta : Metadata) (e : String) (h : Headers) (m : Message) :
    Nat :=
  if containsSubstr "input" h.destination then
    insertsItems meta e m.forward_differences
  else 0

/-- Number of commands for `e` inserted across a whole event stream. -/
def insertsTrace (meta : Metadata) (e : String)
    (evts : List (Headers × Message)) : Nat :=
  (evts.map (fun p => insertsFor meta e p.1 p.2)).sum

/-- Invariant of the Pending Command Table: every stored record names the
equipment id it is keyed under (lines 120 and 125 make this so). -/
def keyConsistent (im : String → Option PendingCommand) : Prop :=
  ∀ e c, im e = some c → c.equipment_mrid = e

/-- Spec-side description of the phase aggregation (for the refinement
comparison of claim C5): the phases recorded for equipment `e` are the
phases of the measurements whose `eqid` is `e`, concatenated in encounter
order, or absent when there is no such measurement. -/
def specPhases (e : String) (ms : List (String × MeasurementInfo)) :
    Option String :=
  match (ms.filter (fun p => p.2.eqid == e)).map (fun p => p.2.phases) with
  | [] => none
  | s :: rest => some (rest.foldl (fun a b => a ++ b) s)

/-- Accumulator form of the phase aggregation: starting from the current
map entry, append each new phase string. -/
def foldOpt : Option String → List String → Option String
  | o, [] => o
  | none, s :: rest => foldOpt (some s) rest
  | some p, s :: rest => foldOpt (some (p ++ s)) rest

/-- Python `eq_phases_map[e] + phases` when the entry exists, plain `phases`
otherwise (lines 261-264). -/
def optAppend : Option String → String → String
  | none, s2 => s2
  | some p, s2 => p ++ s2

theorem updF_same {α : Type} (f : String → Option α) (k : String)
    (v : Option α) : updF f k v k = v := by
  simp [updF]

theorem updF_other {α : Type} (f : String → Option α) (k : String)
    (v : Option α) (x : String) (h : x ≠ k) : updF f k v x = f x := by
  simp [updF, h]

theorem processDiffItem_pend (meta : Metadata) (goss : String)
    (im : String → Option PendingCommand) (it : DiffItem) (e : String) :
    pendN (processDiffItem meta goss im it).1 e ≤
      pendN im e + insertsItem meta e it := by
  unfold processDiffItem insertsItem
  cases hq : meta.equipment_dict it.object with
  | none => simp
  | some name =>
    by_cases htr : trackedAttr it.attr = true
    · simp only [htr, if_true]
      cases hph : meta.eq_phases_map it.object with
      | none => simp
      | some ph =>
        by_cases he : e = it.object
        · subst he
          simp [pendN, updF_same, hq, htr]
        · simp [pendN, updF_other _ _ _ _ he]
    · simp [htr]

theorem processDiffItem_cons (meta : Metadata) (goss : String)
    (im : String → Option PendingCommand) (it : DiffItem)
    (hk : keyConsistent im) :
    keyConsistent (processDiffItem meta goss im it).1 := by
  unfold processDiffItem
  cases hq : meta.equipment_dict it.object with
  | none => exact hk
  | some name =>
    by_cases htr : trackedAttr it.attr = true
    · simp only [htr, if_true]
      cases hph : meta.eq_phases_map it.object with
      | none => exact hk
      | some ph =>
        intro e c hc
        dsimp only at hc
        by_cases he : e = it.object
        · subst he
          rw [updF_same] at hc
          cases hc
          rfl
        · rw [updF_other _ _ _ _ he] at hc
          exact hk e c hc
    · simp only [htr, if_false]
      exact hk

theorem processDiffItems_pend (meta : Metadata) (goss : String)
    (items : List DiffItem) (e : String) :
    ∀ im, keyConsistent im →
      keyConsistent (processDiffItems meta goss im items).1 ∧
      pendN (processDiffItems meta goss im items).1 e ≤
        pendN im e + insertsItems meta e items := by
  induction items with
  | nil =>
    intro im hk
    exact ⟨hk, by simp [processDiffItems, insertsItems]⟩
  | cons it rest ih =>
    intro im hk
    have hstep := processDiffItem_pend meta goss im it e
    have hcons := processDiffItem_cons meta goss im it hk
    unfold processDiffItems
    have hsum : insertsItems meta e (it :: rest) =
        insertsItem meta e it + insertsItems meta e rest := by
      simp [insertsItems]
    cases h2 : (processDiffItem meta goss im it).2 with
    | true =>
      simp only [h2, if_true]
      obtain ⟨hk', hle⟩ := ih (processDiffItem meta goss im it).1 hcons
      refine ⟨hk', ?_⟩
      rw [hsum]
      omega
    | false =>
      simp only [h2, Bool.false_eq_true, if_false]
      refine ⟨hcons, ?_⟩
      rw [hsum]
      omega

theorem alarmsFor_snoc (e : String) (a : Alarm) (l : List Alarm) :
    alarmsFor e (l ++ [a]) =
      alarmsFor e l + (if a.cmd.equipment_mrid = e then 1 else 0) := by
  by_cases h : a.cmd.equipment_mrid = e <;>
    simp [alarmsFor, List.filter_append, h]

theorem processMeasurement_pend (meta : Metadata) (msg : Message)
    (s : SubscriberState) (al : List Alarm) (m e : String)
    (hk : keyConsistent s.input_map) :
    keyConsistent (processMeasurement meta msg s al m).1.input_map ∧
    alarmsFor e (processMeasurement meta msg s al m).2.1 +
      pendN (processMeasurement meta msg s al m).1.input_map e ≤
      alarmsFor e al + pendN s.input_map e := by
  unfold processMeasurement
  cases hv : msg.measurements m with
  | none => exact ⟨hk, le_refl _⟩
  | some v =>
    cases h0 : s.measurement_value m with
    | none => exact ⟨hk, le_refl _⟩
    | some w =>
      dsimp only
      by_cases hne : w ≠ v
      · rw [if_pos hne]
        cases hm : meta.meas_eq_map m with
        | none => exact ⟨hk, le_refl _⟩
        | some eq =>
          dsimp only
          cases hcm : s.input_map eq with
          | none => exact ⟨hk, le_refl _⟩
          | some cmd =>
            have hcn : cmd.equipment_mrid = eq := hk eq cmd hcm
            constructor
            · intro e' c' h'
              dsimp only at h'
              by_cases he' : e' = eq
              · subst he'
                rw [updF_same] at h'
                cases h'
              · rw [updF_other _ _ _ _ he'] at h'
                exact hk e' c' h'
            · rw [alarmsFor_snoc]
              by_cases he : e = eq
              · subst he
                simp [pendN, updF_same, hcm, hcn]
              · have h1 : pendN (updF s.input_map eq none) e =
                    pendN s.input_map e := by
                  unfold pendN
                  rw [updF_other _ _ _ _ he]
                have h2 : ¬ cmd.equipment_mrid = e := by
                  rw [hcn]
                  exact fun hh => he hh.symm
                simp [h1, h2]
      · rw [if_neg hne]
        exact ⟨hk, le_refl _⟩

theorem processMeasurements_pend (meta : Metadata) (msg : Message)
    (e : String) :
    ∀ ms : List String, ∀ s al, keyConsistent s.input_map →
      keyConsistent (processMeasurements meta msg s al ms).1.input_map ∧
      alarmsFor e (processMeasurements meta msg s al ms).2.1 +
        pendN (processMeasurements meta msg s al ms).1.input_map e ≤
        alarmsFor e al + pendN s.input_map e := by
  intro ms
  induction ms with
  | nil =>
    intro s al hk
    exact ⟨hk, le_refl _⟩
  | cons m rest ih =>
    intro s al hk
    have hstep := processMeasurement_pend meta msg s al m e hk
    unfold processMeasurements
    cases h2 : (processMeasurement meta msg s al m).2.2 with
    | true =>
      simp only [h2, if_true]
      obtain ⟨hk', hle'⟩ :=
        ih (processMeasurement meta msg s al m).1
          (processMeasurement meta msg s al m).2.1 hstep.1
      exact ⟨hk', le_trans hle' hstep.2⟩
    | false =>
      simp only [h2, Bool.false_eq_true, if_false]
      exact hstep

theorem pubsFor_nil (e : String) : pubsFor e [] = 0 := by
  simp [pubsFor]

theorem pubsFor_single (e : String) (l : List Alarm) :
    pubsFor e [l] = alarmsFor e l := by
  simp [pubsFor]

theorem alarmsFor_nil (e : String) : alarmsFor e [] = 0 := by
  simp [alarmsFor]

theorem on_message_pend (meta : Metadata) (s : SubscriberState)
    (h : Headers) (m : Message) (e : String)
    (hk : keyConsistent s.input_map) :
    keyConsistent (on_message meta s h m).state.input_map ∧
    pubsFor e (on_message meta s h m).published +
      pendN (on_message meta s h m).state.input_map e ≤
      insertsFor meta e h m + pendN s.input_map e := by
  unfold on_message insertsFor
  by_cases hin : containsSubstr "input" h.destination = true
  · simp only [hin, if_true]
    obtain ⟨hk1, hle1⟩ :=
      processDiffItems_pend meta h.goss_subject m.forward_differences e
        s.input_map hk
    cases hr : (processDiffItems meta h.goss_subject s.input_map
        m.forward_differences).2 with
    | false =>
      simp only [hr, Bool.false_eq_true, if_false]
      refine ⟨hk1, ?_⟩
      rw [pubsFor_nil]
      omega
    | true =>
      simp only [hr, if_true]
      by_cases hout : containsSubstr "output" h.destination = true
      · simp only [hout, if_true]
        obtain ⟨hk2, hle2⟩ :=
          processMeasurements_pend meta m e meta.measurement_dict
            { s with input_map := (processDiffItems meta h.goss_subject
                s.input_map m.forward_differences).1 } [] hk1
        rw [alarmsFor_nil] at hle2
        dsimp only at hle2
        cases ho : (processMeasurements meta m
            { s with input_map := (processDiffItems meta h.goss_subject
                s.input_map m.forward_differences).1 }
            [] meta.measurement_dict).2.2 with
        | false =>
          simp only [ho, Bool.false_eq_true, if_false]
          refine ⟨hk2, ?_⟩
          rw [pubsFor_nil]
          omega
        | true =>
          simp only [ho, if_true]
          refine ⟨hk2, ?_⟩
          by_cases hemp : (processMeasurements meta m
              { s with input_map := (processDiffItems meta h.goss_subject
                  s.input_map m.forward_differences).1 }
              [] meta.measurement_dict).2.1.isEmpty = true
          · simp only [hemp, if_true]
            rw [pubsFor_nil]
            omega
          · simp only [hemp, Bool.false_eq_true, if_false]
            rw [pubsFor_single]
            omega
      · simp only [hout, Bool.false_eq_true, if_false]
        refine ⟨hk1, ?_⟩
        simp only [List.isEmpty_nil, if_true]
        rw [pubsFor_nil]
        omega
  · simp only [hin, Bool.false_eq_true, if_false]
    by_cases hout : containsSubstr "output" h.destination = true
    · simp only [hout, if_true]
      obtain ⟨hk2, hle2⟩ :=
        processMeasurements_pend meta m e meta.measurement_dict
          { s with input_map := s.input_map } [] hk
      rw [alarmsFor_nil] at hle2
      dsimp only at hle2
      cases ho : (processMeasurements meta m
          { s with input_map := s.input_map }
          [] meta.measurement_dict).2.2 with
      | false =>
        simp only [ho, Bool.false_eq_true, if_false]
        refine ⟨hk2, ?_⟩
        rw [pubsFor_nil]
        omega
      | true =>
        simp only [ho, if_true]
        refine ⟨hk2, ?_⟩
        by_cases hemp : (processMeasurements meta m
            { s with input_map := s.input_map }
            [] meta.measurement_dict).2.1.isEmpty = true
        · simp only [hemp, if_true]
          rw [pubsFor_nil]
          omega
        · simp only [hemp, Bool.false_eq_true, if_false]
          rw [pubsFor_single]
          omega
    · simp only [hout, Bool.false_eq_true, if_false]
      refine ⟨hk, ?_⟩
      simp only [List.isEmpty_nil, if_true]
      rw [pubsFor_nil]

theorem pubsFor_append (e : String) (l1 l2 : List (List Alarm)) :
    pubsFor e (l1 ++ l2) = pubsFor e l1 + pubsFor e l2 := by
  simp [pubsFor]

theorem processEvents_pend (meta : Metadata) (e : String) :
    ∀ evts : List (Headers × Message), ∀ s, keyConsistent s.input_map →
      keyConsistent (processEvents meta s evts).1.input_map ∧
      pubsFor e (processEvents meta s evts).2.1 +
        pendN (processEvents meta s evts).1.input_map e ≤
        insertsTrace meta e evts + pendN s.input_map e := by
  intro evts
  induction evts with
  | nil =>
    intro s hk
    refine ⟨hk, ?_⟩
    simp [processEvents, insertsTrace, pubsFor_nil]
  | cons ev rest ih =>
    intro s hk
    obtain ⟨h, m⟩ := ev
    have hstep := on_message_pend meta s h m e hk
    have hsum : insertsTrace meta e ((h, m) :: rest) =
        insertsFor meta e h m + insertsTrace meta e rest := by
      simp [insertsTrace]
    unfold processEvents
    cases hr : (on_message meta s h m).ok with
    | true =>
      simp only [hr, if_true]
      obtain ⟨hk', hle'⟩ := ih (on_message meta s h m).state hstep.1
      refine ⟨hk', ?_⟩
      rw [hsum, pubsFor_append]
      have := hstep.2
      omega
    | false =>
      simp only [hr, Bool.false_eq_true, if_false]
      refine ⟨hstep.1, ?_⟩
      rw [hsum]
      have := hstep.2
      omega

theorem processDiffItem_insert (meta : Metadata) (goss : String)
    (im : String → Option PendingCommand) (d : DiffItem) (name ph : String)
    (ht : trackedAttr d.attr = true)
    (heq : meta.equipment_dict d.object = some name)
    (hph : meta.eq_phases_map d.object = some ph) :
    processDiffItem meta goss im d =
      (updF im d.object (some (mkPendingCommand goss d name ph)), true) := by
  unfold processDiffItem
  rw [heq, ht, hph]
  simp

/-! ### Claim theorems -/

/-- Claim C1: for any pending command inserted for an equipment id `e`, at most
one alarm referencing that command instance is ever published across the
whole event stream, and a published command is removed from the Pending
Command Table.  Counting form: starting from the initial (empty) state, the
number of published alarms for `e` plus the number of commands for `e`
still pending at the end never exceeds the number of command insertions
for `e` performed by the stream. -/
theorem C1_at_most_once_per_command (meta : Metadata)
    (evts : List (Headers × Message)) (e : String) :
    pubsFor e (processEvents meta initState evts).2.1 +
      pendN (processEvents meta initState evts).1.input_map e ≤
      insertsTrace meta e evts := by
  have h0 : keyConsistent initState.input_map := by
    intro e' c hc
    simp [initState] at hc
  obtain ⟨_, hle⟩ := processEvents_pend meta e evts initState h0
  have hz : pendN initState.input_map e = 0 := by
    simp [pendN, initState]
  omega

/-- Claim C3: a measurement id with no prior snapshot entry gets the event's
value recorded as its snapshot and contributes no alarm, whatever pending
commands exist: the loop iteration only updates `measurement_value`. -/
theorem C3_first_observation_no_alarm (meta : Metadata) (msg : Message)
    (s : SubscriberState) (al : List Alarm) (m : String) (v : Int)
    (h0 : s.measurement_value m = none)
    (hv : msg.measurements m = some v) :
    processMeasurement meta msg s al m =
      ({ s with measurement_value := updF s.measurement_value m (some v) },
        al, true) ∧
    (processMeasurement meta msg s al m).1.measurement_value m = some v := by
  have h1 : processMeasurement meta msg s al m =
      ({ s with measurement_value := updF s.measurement_value m (some v) },
        al, true) := by
    unfold processMeasurement
    rw [hv, h0]
  refine ⟨h1, ?_⟩
  rw [h1]
  exact updF_same _ _ _

/-- Witness for C3 at a concrete input. -/
theorem C3_first_observation_no_alarm_w :
    initState.measurement_value "M1" = none ∧
    (⟨[], 7, fun k => if k = "M1" then some 5 else none⟩ :
        Message).measurements "M1" = some 5 ∧
    (processMeasurement ⟨fun _ => none, ["M1"], fun _ => none, fun _ => none⟩
        ⟨[], 7, fun k => if k = "M1" then some 5 else none⟩ initState []
        "M1" =
      ({ initState with
          measurement_value := updF initState.measurement_value "M1" (some 5) },
        [], true) ∧
    (processMeasurement ⟨fun _ => none, ["M1"], fun _ => none, fun _ => none⟩
        ⟨[], 7, fun k => if k = "M1" then some 5 else none⟩ initState []
        "M1").1.measurement_value "M1" = some 5) :=
  ⟨rfl, rfl,
    C3_first_observation_no_alarm _ _ _ _ _ _ rfl rfl⟩

/-- Claim C6: a difference item whose target is not in the equipment directory,
or whose attribute is not one of the two tracked attributes, leaves the
Pending Command Table unchanged and raises nothing. -/
theorem C6_untracked_item_skipped (meta : Metadata) (goss : String)
    (im : String → Option PendingCommand) (item : DiffItem)
    (h : meta.equipment_dict item.object = none ∨
      trackedAttr item.attr = false) :
    processDiffItem meta goss im item = (im, true) := by
  cases h with
  | inl h1 => simp [processDiffItem, h1]
  | inr h2 =>
    cases hq : meta.equipment_dict item.object with
    | none => simp [processDiffItem, hq]
    | some name => simp [processDiffItem, hq, h2]

/-- Witness for C6 at a concrete input. -/
theorem C6_untracked_item_skipped_w :
    ((⟨fun _ => none, [], fun _ => none, fun _ => none⟩ :
        Metadata).equipment_dict "X" = none ∨
      trackedAttr "Switch.open" = false) ∧
    processDiffItem ⟨fun _ => none, [], fun _ => none, fun _ => none⟩ "g"
        (fun _ => none) ⟨"X", "Switch.open", 1⟩ =
      (fun _ => none, true) :=
  ⟨Or.inl rfl,
    C6_untracked_item_skipped _ _ _ _ (Or.inl rfl)⟩

/-- Claim C7: re-observing the stored snapshot value is a no-op: the state, the
alarm list and the completion flag are exactly as before. -/
theorem C7_idempotent_reobservation (meta : Metadata) (msg : Message)
    (s : SubscriberState) (al : List Alarm) (m : String) (v : Int)
    (h0 : s.measurement_value m = some v)
    (hv : msg.measurements m = some v) :
    processMeasurement meta msg s al m = (s, al, true) := by
  unfold processMeasurement
  rw [hv, h0]
  dsimp only
  rw [if_neg (fun hh => hh rfl)]

/-- Witness for C7 at a concrete input. -/
theorem C7_idempotent_reobservation_w :
    (⟨fun _ => none, fun k => if k = "M1" then some 5 else none⟩ :
        SubscriberState).measurement_value "M1" = some 5 ∧
    (⟨[], 7, fun k => if k = "M1" then some 5 else none⟩ :
        Message).measurements "M1" = some 5 ∧
    processMeasurement ⟨fun _ => none, ["M1"], fun _ => none, fun _ => none⟩
        ⟨[], 7, fun k => if k = "M1" then some 5 else none⟩
        ⟨fun _ => none, fun k => if k = "M1" then some 5 else none⟩ [] "M1" =
      (⟨fun _ => none, fun k => if k = "M1" then some 5 else none⟩, [],
        true) :=
  ⟨rfl, rfl,
    C7_idempotent_reobservation _ _ _ _ _ _ rfl rfl⟩

/-- Claim C8: an accepted difference item is stored with normalized value
`"Open"` exactly when its numeric value is `1`, and `"Close"` for any
other value. -/
theorem C8_value_normalization (meta : Metadata) (goss : String)
    (im : String → Option PendingCommand) (item : DiffItem)
    (name ph : String)
    (heq : meta.equipment_dict item.object = some name)
    (htr : trackedAttr item.attr = true)
    (hph : meta.eq_phases_map item.object = some ph) :
    (processDiffItem meta goss im item).1 item.object =
      some (mkPendingCommand goss item name ph) ∧
    ((mkPendingCommand goss item name ph).value = "Open" ↔
      item.value = 1) ∧
    (item.value ≠ 1 → (mkPendingCommand goss item name ph).value =
      "Close") := by
  refine ⟨?_, ?_, ?_⟩
  · rw [processDiffItem_insert meta goss im item name ph htr heq hph]
    exact updF_same _ _ _
  · by_cases h1 : item.value = 1 <;> simp [mkPendingCommand, h1]
  · intro h1
    simp [mkPendingCommand, h1]

/-- Witness for C8 at a concrete input. -/
theorem C8_value_normalization_w :
    (⟨fun k => if k = "E" then some "nm" else none, [], fun _ => none,
        fun k => if k = "E" then some "A" else none⟩ :
      Metadata).equipment_dict (⟨"E", "Switch.open", 1⟩ : DiffItem).object =
        some "nm" ∧
    trackedAttr (⟨"E", "Switch.open", 1⟩ : DiffItem).attr = true ∧
    (⟨fun k => if k = "E" then some "nm" else none, [], fun _ => none,
        fun k => if k = "E" then some "A" else none⟩ :
      Metadata).eq_phases_map (⟨"E", "Switch.open", 1⟩ : DiffItem).object =
        some "A" ∧
    ((processDiffItem
        ⟨fun k => if k = "E" then some "nm" else none, [], fun _ => none,
          fun k => if k = "E" then some "A" else none⟩ "g" (fun _ => none)
        ⟨"E", "Switch.open", 1⟩).1 "E" =
      some (mkPendingCommand "g" ⟨"E", "Switch.open", 1⟩ "nm" "A") ∧
    ((mkPendingCommand "g" ⟨"E", "Switch.open", 1⟩ "nm" "A").value =
        "Open" ↔ (⟨"E", "Switch.open", 1⟩ : DiffItem).value = 1) ∧
    ((⟨"E", "Switch.open", 1⟩ : DiffItem).value ≠ 1 →
      (mkPendingCommand "g" ⟨"E", "Switch.open", 1⟩ "nm" "A").value =
        "Close")) :=
  ⟨rfl, rfl, rfl,
    C8_value_normalization _ _ _ _ _ _ rfl rfl rfl⟩

theorem processDiffItems_single (meta : Metadata) (goss : String)
    (im : String → Option PendingCommand) (d : DiffItem)
    (r : String → Option PendingCommand)
    (hr : processDiffItem meta goss im d = (r, true)) :
    processDiffItems meta goss im [d] = (r, true) := by
  unfold processDiffItems
  rw [hr]
  simp [processDiffItems]

theorem on_message_input_only (meta : Metadata) (s : SubscriberState)
    (h : Headers) (m : Message) (im' : String → Option PendingCommand)
    (hdi : containsSubstr "input" h.destination = true)
    (hdo : containsSubstr "output" h.destination = false)
    (hpd : processDiffItems meta h.goss_subject s.input_map
        m.forward_differences = (im', true)) :
    on_message meta s h m =
      { state := { s with input_map := im' }, published := [],
        ok := true } := by
  unfold on_message
  simp [hdi, hdo, hpd]

/-- Claim C4: when two tracked commands target the same equipment — in one
command batch or across two command events — only the second survives in
the Pending Command Table; the first is overwritten and neither event
publishes an alarm. -/
theorem C4_second_command_overwrites (meta : Metadata) (goss : String)
    (im : String → Option PendingCommand) (s : SubscriberState)
    (h1 h2 : Headers) (m1 m2 : Message) (d1 d2 : DiffItem)
    (e name ph : String)
    (ho1 : d1.object = e) (ho2 : d2.object = e)
    (ht1 : trackedAttr d1.attr = true) (ht2 : trackedAttr d2.attr = true)
    (heq : meta.equipment_dict e = some name)
    (hph : meta.eq_phases_map e = some ph)
    (hd1 : containsSubstr "input" h1.destination = true)
    (hd1o : containsSubstr "output" h1.destination = false)
    (hd2 : containsSubstr "input" h2.destination = true)
    (hd2o : containsSubstr "output" h2.destination = false)
    (hf1 : m1.forward_differences = [d1])
    (hf2 : m2.forward_differences = [d2]) :
    (processDiffItems meta goss im [d1, d2]).1 e =
      some (mkPendingCommand goss d2 name ph) ∧
    (processEvents meta s [(h1, m1), (h2, m2)]).1.input_map e =
      some (mkPendingCommand h2.goss_subject d2 name ph) ∧
    (processEvents meta s [(h1, m1), (h2, m2)]).2.1 = [] := by
  subst ho1
  have heq2 : meta.equipment_dict d2.object = some name := by
    rw [ho2]; exact heq
  have hph2 : meta.eq_phases_map d2.object = some ph := by
    rw [ho2]; exact hph
  have i1 : processDiffItem meta goss im d1 =
      (updF im d1.object (some (mkPendingCommand goss d1 name ph)),
        true) :=
    processDiffItem_insert meta goss im d1 name ph ht1 heq hph
  have i2 : ∀ im0, processDiffItem meta goss im0 d2 =
      (updF im0 d2.object (some (mkPendingCommand goss d2 name ph)),
        true) :=
    fun im0 => processDiffItem_insert meta goss im0 d2 name ph ht2 heq2 hph2
  have pA : processDiffItems meta goss im [d1, d2] =
      (updF (updF im d1.object (some (mkPendingCommand goss d1 name ph)))
        d2.object (some (mkPendingCommand goss d2 name ph)), true) := by
    simp [processDiffItems, i1, i2]
  have pd1 : processDiffItems meta h1.goss_subject s.input_map
      m1.forward_differences =
      (updF s.input_map d1.object
        (some (mkPendingCommand h1.goss_subject d1 name ph)), true) := by
    rw [hf1]
    exact processDiffItems_single _ _ _ _ _
      (processDiffItem_insert _ _ _ _ _ _ ht1 heq hph)
  have o1 := on_message_input_only meta s h1 m1 _ hd1 hd1o pd1
  have pd2 : processDiffItems meta h2.goss_subject
      (updF s.input_map d1.object
        (some (mkPendingCommand h1.goss_subject d1 name ph)))
      m2.forward_differences =
      (updF (updF s.input_map d1.object
          (some (mkPendingCommand h1.goss_subject d1 name ph)))
        d2.object (some (mkPendingCommand h2.goss_subject d2 name ph)),
        true) := by
    rw [hf2]
    exact processDiffItems_single _ _ _ _ _
      (processDiffItem_insert _ _ _ _ _ _ ht2 heq2 hph2)
  have o2 := on_message_input_only meta
    ⟨updF s.input_map d1.object
        (some (mkPendingCommand h1.goss_subject d1 name ph)),
      s.measurement_value⟩
    h2 m2 _ hd2 hd2o pd2
  have pe : processEvents meta s [(h1, m1), (h2, m2)] =
      (⟨updF (updF s.input_map d1.object
            (some (mkPendingCommand h1.goss_subject d1 name ph)))
          d2.object
          (some (mkPendingCommand h2.goss_subject d2 name ph)),
        s.measurement_value⟩,
        [], true) := by
    simp [processEvents, o1, o2]
  refine ⟨?_, ?_, ?_⟩
  · rw [pA]
    dsimp only
    rw [ho2]
    exact updF_same _ _ _
  · rw [pe]
    dsimp only
    rw [ho2]
    exact updF_same _ _ _
  · rw [pe]

/-- Witness for C4 at a concrete input. -/
theorem C4_second_command_overwrites_w :
    (⟨"E", "Switch.open", 1⟩ : DiffItem).object = "E" ∧
    (⟨"E", "Switch.open", 0⟩ : DiffItem).object = "E" ∧
    trackedAttr (⟨"E", "Switch.open", 1⟩ : DiffItem).attr = true ∧
    trackedAttr (⟨"E", "Switch.open", 0⟩ : DiffItem).attr = true ∧
    (⟨fun k => if k = "E" then some "nm" else none, [], fun _ => none,
        fun k => if k = "E" then some "A" else none⟩ :
      Metadata).equipment_dict "E" = some "nm" ∧
    (⟨fun k => if k = "E" then some "nm" else none, [], fun _ => none,
        fun k => if k = "E" then some "A" else none⟩ :
      Metadata).eq_phases_map "E" = some "A" ∧
    containsSubstr "input" (⟨"input", "a1"⟩ : Headers).destination = true ∧
    containsSubstr "output" (⟨"input", "a1"⟩ : Headers).destination = false ∧
    containsSubstr "input" (⟨"input", "a2"⟩ : Headers).destination = true ∧
    containsSubstr "output" (⟨"input", "a2"⟩ : Headers).destination = false ∧
    (⟨[⟨"E", "Switch.open", 1⟩], 0, fun _ => none⟩ :
        Message).forward_differences = [⟨"E", "Switch.open", 1⟩] ∧
    (⟨[⟨"E", "Switch.open", 0⟩], 0, fun _ => none⟩ :
        Message).forward_differences = [⟨"E", "Switch.open", 0⟩] ∧
    ((processDiffItems
        ⟨fun k => if k = "E" then some "nm" else none, [], fun _ => none,
          fun k => if k = "E" then some "A" else none⟩ "g" (fun _ => none)
        [⟨"E", "Switch.open", 1⟩, ⟨"E", "Switch.open", 0⟩]).1 "E" =
      some (mkPendingCommand "g" ⟨"E", "Switch.open", 0⟩ "nm" "A") ∧
    (processEvents
        ⟨fun k => if k = "E" then some "nm" else none, [], fun _ => none,
          fun k => if k = "E" then some "A" else none⟩ initState
        [(⟨"input", "a1"⟩, ⟨[⟨"E", "Switch.open", 1⟩], 0, fun _ => none⟩),
          (⟨"input", "a2"⟩,
            ⟨[⟨"E", "Switch.open", 0⟩], 0, fun _ => none⟩)]).1.input_map
        "E" =
      some (mkPendingCommand "a2" ⟨"E", "Switch.open", 0⟩ "nm" "A") ∧
    (processEvents
        ⟨fun k => if k = "E" then some "nm" else none, [], fun _ => none,
          fun k => if k = "E" then some "A" else none⟩ initState
        [(⟨"input", "a1"⟩, ⟨[⟨"E", "Switch.open", 1⟩], 0, fun _ => none⟩),
          (⟨"input", "a2"⟩,
            ⟨[⟨"E", "Switch.open", 0⟩], 0, fun _ => none⟩)]).2.1 = []) :=
  ⟨rfl, rfl, rfl, rfl, rfl, rfl, rfl, rfl, rfl, rfl, rfl, rfl,
    C4_second_command_overwrites _ "g" _ initState _ _ _ _ _ _ "E" "nm" "A"
      rfl rfl rfl rfl rfl rfl rfl rfl rfl rfl rfl rfl⟩

theorem processMeasurements_ok_present (meta : Metadata) (msg : Message) :
    ∀ ms : List String, ∀ s al,
      (processMeasurements meta msg s al ms).2.2 = true →
      ∀ m ∈ ms, (msg.measurements m).isSome := by
  intro ms
  induction ms with
  | nil =>
    intro s al _ m hm
    cases hm
  | cons m0 rest ih =>
    intro s al hok m hm
    unfold processMeasurements at hok
    dsimp only at hok
    cases hr : (processMeasurement meta msg s al m0).2.2 with
    | false =>
      rw [hr] at hok
      simp at hok
    | true =>
      rw [hr, if_pos rfl] at hok
      rcases List.mem_cons.1 hm with h | h
      · subst h
        cases hv : msg.measurements m with
        | none =>
          exfalso
          unfold processMeasurement at hr
          rw [hv] at hr
          simp at hr
        | some v => simp
      · exact ih _ _ hok m h

/-- Claim C10: the measurement loop indexes the event's measurements map at every
tracked measurement id unconditionally, so `on_message` completes an
output-channel event without fault only when every tracked measurement id
is present in the event's measurements map. -/
theorem C10_all_tracked_ids_required (meta : Metadata)
    (s : SubscriberState) (h : Headers) (m : Message)
    (hout : containsSubstr "output" h.destination = true)
    (hok : (on_message meta s h m).ok = true) :
    ∀ m0 ∈ meta.measurement_dict, (m.measurements m0).isSome := by
  unfold on_message at hok
  dsimp only at hok
  cases hr : (if containsSubstr "input" h.destination then
      processDiffItems meta h.goss_subject s.input_map
        m.forward_differences
    else (s.input_map, true)).2 with
  | false =>
    rw [hr] at hok
    simp at hok
  | true =>
    rw [hr, if_pos rfl] at hok
    rw [hout, if_pos rfl] at hok
    cases ho : (processMeasurements meta m
        ⟨(if containsSubstr "input" h.destination then
            processDiffItems meta h.goss_subject s.input_map
              m.forward_differences
          else (s.input_map, true)).1, s.measurement_value⟩
        [] meta.measurement_dict).2.2 with
    | false =>
      rw [ho] at hok
      simp at hok
    | true =>
      exact processMeasurements_ok_present meta m meta.measurement_dict _ _ ho

/-- Witness for C10 at a concrete input. -/
theorem C10_all_tracked_ids_required_w :
    containsSubstr "output" (⟨"output", "x"⟩ : Headers).destination =
      true ∧
    (on_message ⟨fun _ => none, ["M1"], fun _ => none, fun _ => none⟩
        initState ⟨"output", "x"⟩
        ⟨[], 3, fun k => if k = "M1" then some 1 else none⟩).ok = true ∧
    ∀ m0 ∈ (⟨fun _ => none, ["M1"], fun _ => none, fun _ => none⟩ :
        Metadata).measurement_dict,
      ((⟨[], 3, fun k => if k = "M1" then some 1 else none⟩ :
        Message).measurements m0).isSome :=
  ⟨rfl, rfl,
    C10_all_tracked_ids_required
      ⟨fun _ => none, ["M1"], fun _ => none, fun _ => none⟩ initState
      ⟨"output", "x"⟩ ⟨[], 3, fun k => if k = "M1" then some 1 else none⟩
      rfl rfl⟩

/-- Claim C9: after the measurement loop, `on_message` hands the whole alarm list
to the publisher as one batch when it is non-empty, and makes no publish
call when it is empty. -/
theorem C9_single_batch_publish (meta : Metadata) (s : SubscriberState)
    (h : Headers) (m : Message) (A : List Alarm)
    (hout : containsSubstr "output" h.destination = true)
    (hok : (on_message meta s h m).ok = true)
    (hA : A = (processMeasurements meta m
        ⟨(if containsSubstr "input" h.destination then
            processDiffItems meta h.goss_subject s.input_map
              m.forward_differences
          else (s.input_map, true)).1, s.measurement_value⟩
        [] meta.measurement_dict).2.1) :
    (on_message meta s h m).published = if A.isEmpty then [] else [A] := by
  subst hA
  unfold on_message
  dsimp only
  cases hr : (if containsSubstr "input" h.destination then
      processDiffItems meta h.goss_subject s.input_map
        m.forward_differences
    else (s.input_map, true)).2 with
  | false =>
    exfalso
    unfold on_message at hok
    dsimp only at hok
    rw [hr] at hok
    simp at hok
  | true =>
    rw [if_pos rfl, hout, if_pos rfl]
    cases ho : (processMeasurements meta m
        ⟨(if containsSubstr "input" h.destination then
            processDiffItems meta h.goss_subject s.input_map
              m.forward_differences
          else (s.input_map, true)).1, s.measurement_value⟩
        [] meta.measurement_dict).2.2 with
    | false =>
      exfalso
      unfold on_message at hok
      dsimp only at hok
      rw [hr, if_pos rfl, hout, if_pos rfl, ho] at hok
      simp at hok
    | true =>
      rw [if_pos rfl]

/-- Witness for C9 at a concrete input that publishes one non-empty batch. -/
theorem C9_single_batch_publish_w :
    containsSubstr "output" (⟨"output", "x"⟩ : Headers).destination =
      true ∧
    (on_message
        ⟨fun k => if k = "E" then some "nm" else none, ["M1"],
          fun k => if k = "M1" then some "E" else none,
          fun k => if k = "E" then some "A" else none⟩
        ⟨fun k => if k = "E" then some ⟨"E", "Open", "g", "nm", "A"⟩
            else none,
          fun k => if k = "M1" then some 0 else none⟩
        ⟨"output", "x"⟩
        ⟨[], 9, fun k => if k = "M1" then some 1 else none⟩).ok = true ∧
    ([(⟨⟨"E", "Open", "g", "nm", "A"⟩, 9⟩ : Alarm)] : List Alarm) =
      (processMeasurements
        ⟨fun k => if k = "E" then some "nm" else none, ["M1"],
          fun k => if k = "M1" then some "E" else none,
          fun k => if k = "E" then some "A" else none⟩
        ⟨[], 9, fun k => if k = "M1" then some 1 else none⟩
        ⟨(if containsSubstr "input"
              (⟨"output", "x"⟩ : Headers).destination then
            processDiffItems
              ⟨fun k => if k = "E" then some "nm" else none, ["M1"],
                fun k => if k = "M1" then some "E" else none,
                fun k => if k = "E" then some "A" else none⟩
              (⟨"output", "x"⟩ : Headers).goss_subject
              (fun k => if k = "E" then some ⟨"E", "Open", "g", "nm", "A"⟩
                else none)
              (⟨[], 9, fun k => if k = "M1" then some 1 else none⟩ :
                Message).forward_differences
          else (fun k => if k = "E" then some ⟨"E", "Open", "g", "nm", "A"⟩
              else none, true)).1,
          fun k => if k = "M1" then some 0 else none⟩
        []
        (⟨fun k => if k = "E" then some "nm" else none, ["M1"],
          fun k => if k = "M1" then some "E" else none,
          fun k => if k = "E" then some "A" else none⟩ :
            Metadata).measurement_dict).2.1 ∧
    (on_message
        ⟨fun k => if k = "E" then some "nm" else none, ["M1"],
          fun k => if k = "M1" then some "E" else none,
          fun k => if k = "E" then some "A" else none⟩
        ⟨fun k => if k = "E" then some ⟨"E", "Open", "g", "nm", "A"⟩
            else none,
          fun k => if k = "M1" then some 0 else none⟩
        ⟨"output", "x"⟩
        ⟨[], 9, fun k => if k = "M1" then some 1 else none⟩).published =
      if ([(⟨⟨"E", "Open", "g", "nm", "A"⟩, 9⟩ : Alarm)] :
          List Alarm).isEmpty then []
      else [[(⟨⟨"E", "Open", "g", "nm", "A"⟩, 9⟩ : Alarm)]] :=
  ⟨rfl, rfl, rfl,
    C9_single_batch_publish
      ⟨fun k => if k = "E" then some "nm" else none, ["M1"],
        fun k => if k = "M1" then some "E" else none,
        fun k => if k = "E" then some "A" else none⟩
      ⟨fun k => if k = "E" then some ⟨"E", "Open", "g", "nm", "A"⟩
          else none,
        fun k => if k = "M1" then some 0 else none⟩
      ⟨"output", "x"⟩
      ⟨[], 9, fun k => if k = "M1" then some 1 else none⟩
      [(⟨⟨"E", "Open", "g", "nm", "A"⟩, 9⟩ : Alarm)]
      rfl rfl rfl⟩

/-- Counterexample to C2 as stated: with measurement `"M1"` tracked but
absent from `meas_eq_map` (its equipment was missing from the directory at
build time), a measurement-output event that changes its value does not
complete normally — the `meas_eq_map` lookup raises and `on_message`
aborts. -/
theorem C2_counterexample :
    (on_message ⟨fun _ => none, ["M1"], fun _ => none, fun _ => none⟩
        ⟨fun _ => none, fun k => if k = "M1" then some 0 else none⟩
        ⟨"output", "x"⟩
        ⟨[], 5, fun k => if k = "M1" then some 1 else none⟩).ok = false :=
  rfl

/-- Claim C2 (amended): a tracked measurement with no entry in the
measurement-to-equipment map is skipped silently only while no value change
is detected — on its first observation (snapshot recorded, no alarm) and
when its value is unchanged (no-op).  When a value change is detected, the
equipment lookup faults after the snapshot has already been updated, and the
measurement loop aborts. -/
theorem C2_unmapped_measurement (meta : Metadata) (msg : Message)
    (s : SubscriberState) (al : List Alarm) (m : String) (v : Int)
    (hmap : meta.meas_eq_map m = none)
    (hv : msg.measurements m = some v) :
    (s.measurement_value m = none →
      processMeasurement meta msg s al m =
        ({ s with
            measurement_value := updF s.measurement_value m (some v) },
          al, true)) ∧
    (s.measurement_value m = some v →
      processMeasurement meta msg s al m = (s, al, true)) ∧
    (∀ w, s.measurement_value m = some w → w ≠ v →
      processMeasurement meta msg s al m =
        ({ s with
            measurement_value := updF s.measurement_value m (some v) },
          al, false)) := by
  refine ⟨?_, ?_, ?_⟩
  · intro h0
    unfold processMeasurement
    rw [hv, h0]
  · intro h0
    unfold processMeasurement
    rw [hv, h0]
    dsimp only
    rw [if_neg (fun hh => hh rfl)]
  · intro w h0 hne
    unfold processMeasurement
    rw [hv, h0]
    dsimp only
    rw [if_pos hne, hmap]

/-- Witness for the amended C2 at a concrete input. -/
theorem C2_unmapped_measurement_w :
    (⟨fun _ => none, ["M1"], fun _ => none, fun _ => none⟩ :
        Metadata).meas_eq_map "M1" = none ∧
    (⟨[], 5, fun k => if k = "M1" then some 1 else none⟩ :
        Message).measurements "M1" = some 1 ∧
    (((⟨fun _ => none, fun k => if k = "M1" then some 0 else none⟩ :
        SubscriberState).measurement_value "M1" = none →
      processMeasurement ⟨fun _ => none, ["M1"], fun _ => none,
          fun _ => none⟩
        ⟨[], 5, fun k => if k = "M1" then some 1 else none⟩
        ⟨fun _ => none, fun k => if k = "M1" then some 0 else none⟩ []
        "M1" =
        ({ (⟨fun _ => none, fun k => if k = "M1" then some 0 else none⟩ :
            SubscriberState) with
            measurement_value := updF
              (⟨fun _ => none, fun k => if k = "M1" then some 0 else none⟩ :
                SubscriberState).measurement_value "M1" (some 1) },
          [], true)) ∧
    ((⟨fun _ => none, fun k => if k = "M1" then some 0 else none⟩ :
        SubscriberState).measurement_value "M1" = some 1 →
      processMeasurement ⟨fun _ => none, ["M1"], fun _ => none,
          fun _ => none⟩
        ⟨[], 5, fun k => if k = "M1" then some 1 else none⟩
        ⟨fun _ => none, fun k => if k = "M1" then some 0 else none⟩ []
        "M1" =
        (⟨fun _ => none, fun k => if k = "M1" then some 0 else none⟩, [],
          true)) ∧
    (∀ w, (⟨fun _ => none, fun k => if k = "M1" then some 0 else none⟩ :
        SubscriberState).measurement_value "M1" = some w → w ≠ 1 →
      processMeasurement ⟨fun _ => none, ["M1"], fun _ => none,
          fun _ => none⟩
        ⟨[], 5, fun k => if k = "M1" then some 1 else none⟩
        ⟨fun _ => none, fun k => if k = "M1" then some 0 else none⟩ []
        "M1" =
        ({ (⟨fun _ => none, fun k => if k = "M1" then some 0 else none⟩ :
            SubscriberState) with
            measurement_value := updF
              (⟨fun _ => none, fun k => if k = "M1" then some 0 else none⟩ :
                SubscriberState).measurement_value "M1" (some 1) },
          [], false))) :=
  ⟨rfl, rfl,
    C2_unmapped_measurement _ _ _ _ _ _ rfl rfl⟩

theorem buildStep_other (mid : String) (mi : MeasurementInfo)
    (maps : IndexMaps) (eq e : String) (he : e ≠ mi.eqid) :
    (buildStep mid mi maps eq).eq_phases e = maps.eq_phases e := by
  unfold buildStep
  by_cases h : eq = mi.eqid
  · rw [if_pos h]
    cases hp : maps.eq_phases eq <;> dsimp only <;>
      rw [updF_other _ _ _ _ (by rw [h]; exact he)]
  · rw [if_neg h]

theorem foldl_buildStep_other (mid : String) (mi : MeasurementInfo)
    (e : String) (he : e ≠ mi.eqid) :
    ∀ eqIds : List String, ∀ maps : IndexMaps,
      (eqIds.foldl (buildStep mid mi) maps).eq_phases e =
        maps.eq_phases e := by
  intro eqIds
  induction eqIds with
  | nil => intro maps; rfl
  | cons a rest ih =>
    intro maps
    rw [List.foldl_cons, ih, buildStep_other mid mi maps a e he]

theorem foldl_buildStep_notmem (mid : String) (mi : MeasurementInfo) :
    ∀ eqIds : List String, mi.eqid ∉ eqIds → ∀ maps : IndexMaps,
      eqIds.foldl (buildStep mid mi) maps = maps := by
  intro eqIds
  induction eqIds with
  | nil => intro _ maps; rfl
  | cons a rest ih =>
    intro hmem maps
    rw [List.foldl_cons]
    have ha : ¬ a = mi.eqid := by
      intro hh
      exact hmem (by rw [hh]; exact List.mem_cons_self _ _)
    have hid : buildStep mid mi maps a = maps := by
      unfold buildStep
      rw [if_neg ha]
    rw [hid]
    exact ih (fun hm => hmem (List.mem_cons_of_mem _ hm)) maps

theorem foldl_buildStep_mem (mid : String) (mi : MeasurementInfo) :
    ∀ eqIds : List String, eqIds.Nodup → mi.eqid ∈ eqIds →
      ∀ maps : IndexMaps,
      (eqIds.foldl (buildStep mid mi) maps).eq_phases mi.eqid =
        some (optAppend (maps.eq_phases mi.eqid) mi.phases) := by
  intro eqIds
  induction eqIds with
  | nil =>
    intro _ hmem
    cases hmem
  | cons a rest ih =>
    intro hnd hmem maps
    rw [List.foldl_cons]
    by_cases ha : a = mi.eqid
    · subst ha
      have hnotin : mi.eqid ∉ rest := (List.nodup_cons.1 hnd).1
      rw [foldl_buildStep_notmem mid mi rest hnotin]
      unfold buildStep
      rw [if_pos rfl]
      cases hp : maps.eq_phases mi.eqid <;> dsimp only <;>
        rw [updF_same] <;> simp [optAppend]
    · have hmem' : mi.eqid ∈ rest := by
        rcases List.mem_cons.1 hmem with h | h
        · exact absurd h.symm ha
        · exact h
      have hb : buildStep mid mi maps a = maps := by
        unfold buildStep
        rw [if_neg ha]
      rw [hb]
      exact ih (List.nodup_cons.1 hnd).2 hmem' maps

theorem foldOpt_cons (o : Option String) (s2 : String) (l : List String) :
    foldOpt o (s2 :: l) = foldOpt (some (optAppend o s2)) l := by
  cases o <;> rfl

theorem foldOpt_grow :
    ∀ (l : List String) (p : String),
      foldOpt (some p) l = some (l.foldl (fun a b => a ++ b) p) := by
  intro l
  induction l with
  | nil => intro p; rfl
  | cons s rest ih =>
    intro p
    rw [List.foldl_cons]
    exact ih (p ++ s)

theorem buildMaps_phases (eqIds : List String) (e : String)
    (hnd : eqIds.Nodup) (he : e ∈ eqIds) :
    ∀ ms : List (String × MeasurementInfo), ∀ maps : IndexMaps,
      (buildMaps eqIds maps ms).eq_phases e =
        foldOpt (maps.eq_phases e)
          ((ms.filter (fun p => p.2.eqid == e)).map
            (fun p => p.2.phases)) := by
  intro ms
  induction ms with
  | nil =>
    intro maps
    simp [buildMaps, foldOpt]
  | cons p rest ih =>
    obtain ⟨mid, mi⟩ := p
    intro maps
    unfold buildMaps
    by_cases hm : mi.eqid = e
    · subst hm
      have hf : (((mid, mi) :: rest).filter
          (fun p => p.2.eqid == mi.eqid)) =
          (mid, mi) :: rest.filter (fun p => p.2.eqid == mi.eqid) := by
        simp [List.filter_cons]
      rw [ih, hf, List.map_cons, foldOpt_cons,
        foldl_buildStep_mem mid mi eqIds hnd he maps]
    · have hf : (((mid, mi) :: rest).filter (fun p => p.2.eqid == e)) =
          rest.filter (fun p => p.2.eqid == e) := by
        simp [List.filter_cons, hm]
      rw [ih, hf,
        foldl_buildStep_other mid mi e (fun hh => hm hh.symm) eqIds maps]

/-- Counterexample to C5 as stated: two position measurements of equipment
`"E1"` both reporting phase `"A"` produce the phase value `"AA"` — the
build loop concatenates phase strings, so a phase can appear more than
once, contradicting the claimed duplicate-free union. -/
theorem C5_counterexample :
    (buildMaps ["E1"] emptyMaps
        [("M1", ⟨"E1", "A"⟩), ("M2", ⟨"E1", "A"⟩)]).eq_phases "E1" =
      some "AA" ∧ ¬ (String.toList "AA").Nodup := by
  refine ⟨rfl, ?_⟩
  decide

/-- Claim C5 (amended): after the index build, the phase value recorded for an
equipment id `e` in the equipment directory is the concatenation, in
measurement-iteration order and with duplicates retained, of the phase
strings of the position measurements whose `eqid` is `e`; it is absent
when no measurement matches. -/
theorem C5_phases_are_concatenation (eqIds : List String)
    (ms : List (String × MeasurementInfo)) (e : String)
    (hnd : eqIds.Nodup) (he : e ∈ eqIds) :
    (buildMaps eqIds emptyMaps ms).eq_phases e = specPhases e ms := by
  rw [buildMaps_phases eqIds e hnd he ms emptyMaps]
  have hz : emptyMaps.eq_phases e = none := rfl
  rw [hz]
  unfold specPhases
  generalize (ms.filter (fun p => p.2.eqid == e)).map
    (fun p => p.2.phases) = l
  cases l with
  | nil => rfl
  | cons s rest =>
    rw [foldOpt_cons]
    exact foldOpt_grow rest _

/-- Witness for the amended C5 at a concrete input. -/
theorem C5_phases_are_concatenation_w :
    (["E1"] : List String).Nodup ∧ "E1" ∈ (["E1"] : List String) ∧
    (buildMaps ["E1"] emptyMaps
        [("M1", ⟨"E1", "A"⟩), ("M2", ⟨"E1", "A"⟩)]).eq_phases "E1" =
      specPhases "E1" [("M1", ⟨"E1", "A"⟩), ("M2", ⟨"E1", "A"⟩)] :=
  ⟨by decide, by decide,
    C5_phases_are_concatenation _ _ _ (by decide) (by decide)⟩

end GridappsdAlarms
